import Mathlib

/-!
Verification of the MutationWatcher repository (src/MutationWatcher.js)
against its natural-language specification.

The development shallowly embeds the JavaScript value domain and the
watcher's operations.  JavaScript values are modelled as finite trees:
an object is its list of own enumerable properties in insertion order
(JavaScript objects cannot hold duplicate keys; the association lists we
build never do either).  Functions are modelled by an identity tag,
since the source only ever compares them by reference or serializes
them (to `undefined`).  Numbers are modelled by `Int`: every numeric
literal appearing in the claims is an integer, and `JSON.stringify`
prints integers the same way `toString` does.

Mutation is modelled by explicit state passing: the proxy `set` trap
becomes a function from the target's fields to updated fields plus the
list of `emit` calls (`ChangeEvent`s) the write produced, and the
dispatcher `emit` maps a change event to the list of listener/global
callback invocations it performs, in order.
-/

/-- A JavaScript value as the watcher can observe it: `undef` is
`undefined`, `vfun i` is a function object with identity tag `i`, and
`vobj fs` is a plain object (or array) whose own enumerable properties,
in insertion order, are `fs`.  Arrays pass through the proxy `set` trap
exactly like objects, with their indices arriving as decimal-string
property keys, so they are represented as objects with numeric-string
keys. -/
inductive JSVal where
  | undef : JSVal
  | null : JSVal
  | vbool : Bool → JSVal
  | vnum : Int → JSVal
  | vstr : String → JSVal
  | vfun : Nat → JSVal
  | vobj : List (String × JSVal) → JSVal

/-- The own enumerable properties of a backing object, in insertion
order. -/
abbrev Fields := List (String × JSVal)

/-- Property read `target[name]`: the value of the first entry with the
given key, or `undefined` when the property is absent (the proxies in
the source install no `get` trap, so reads fall through to backing
storage). -/
def getField : Fields → String → JSVal
  | [], _ => .undef
  | (k, v) :: rest, name => if k = name then v else getField rest name

/-- Property write `target[name] = v` on backing storage: overwriting
an existing key keeps its position (JavaScript preserves insertion
order on overwrite); a new key is appended. -/
def setField : Fields → String → JSVal → Fields
  | [], name, v => [(name, v)]
  | (k, w) :: rest, name, v =>
      if k = name then (k, v) :: rest else (k, w) :: setField rest name v

/-- The test `typeof newVal === 'object' && newVal !== null` from the
`set` trap: true exactly for containers. -/
def isObj : JSVal → Bool
  | .vobj _ => true
  | _ => false

/-- JSON string quoting as `JSON.stringify` performs it; the values in
this development contain no control characters, so escaping quote and
backslash is exact on them. -/
def jsonQuote (s : String) : String :=
  "\"" ++ String.join (s.toList.map fun c =>
    if c = '"' then "\\\"" else if c = '\\' then "\\\\" else String.singleton c) ++ "\""

mutual

/-- `JSON.stringify(v)`: `none` models the JavaScript result
`undefined` (obtained for `undefined` itself and for functions);
`some s` models the JSON text `s`. -/
def jsonStr : JSVal → Option String
  | .undef => none
  | .vfun _ => none
  | .null => some "null"
  | .vbool b => some (if b then "true" else "false")
  | .vnum n => some (toString n)
  | .vstr s => some (jsonQuote s)
  | .vobj fs => some ("\x7b" ++ String.intercalate "," (jsonFields fs) ++ "\x7d")

/-- The serialized `"key":value` members of an object, in property
order; properties whose value serializes to `undefined` (functions,
`undefined`) are omitted, as `JSON.stringify` omits them. -/
def jsonFields : Fields → List String
  | [] => []
  | (k, v) :: rest =>
      match jsonStr v with
      | some sv => (jsonQuote k ++ ":" ++ sv) :: jsonFields rest
      | none => jsonFields rest

end

mutual

/-- Strict equality `===` on the value trees.  `===` is true in
JavaScript only for identical references, which denote identical trees
here; two distinct references with equal trees compare `false` under
`===` but are then caught by the (deterministic) serialization
comparison in `handleChange`, so using tree equality for the shortcut
leaves every dispatch decision of the source unchanged. -/
def jsBeq : JSVal → JSVal → Bool
  | .undef, .undef => true
  | .null, .null => true
  | .vbool a, .vbool b => a == b
  | .vnum a, .vnum b => a == b
  | .vstr a, .vstr b => a == b
  | .vfun a, .vfun b => a == b
  | .vobj fs, .vobj gs => jsBeqFields fs gs
  | _, _ => false

/-- Tree equality on property lists, entrywise. -/
def jsBeqFields : Fields → Fields → Bool
  | [], [] => true
  | (k, v) :: rest, (k2, v2) :: rest2 => k == k2 && jsBeq v v2 && jsBeqFields rest rest2
  | _, _ => false

end

/-- One call of `emit`, i.e. one dispatched change: the full dotted
path together with the `(newVal, oldVal)` pair handed to the
dispatcher. -/
structure ChangeEvent where
  path : String
  newVal : JSVal
  oldVal : JSVal

/-- `handleChange` from the source: the write is reported unless
`newVal === oldVal` or `JSON.stringify(newVal) === JSON.stringify(oldVal)`
(note `undefined === undefined` is true, so two values that both
serialize to `undefined` — functions, `undefined` — always compare
equal here).  The returned list is the list of `emit` calls performed
(empty or a single one). -/
def handleChange (path : String) (newVal oldVal : JSVal) : List ChangeEvent :=
  if jsBeq newVal oldVal || jsonStr newVal == jsonStr oldVal then []
  else [⟨path, newVal, oldVal⟩]

mutual

/-- The proxy `set` trap (`_generateHandler(parentName).set`) acting on
the target's backing fields: reads `oldVal = target[name]`, commits the
value (wrapping a container changes interception, not contents, so the
committed tree is `newVal`'s tree), runs `handleChange(parentName +
name, newVal, oldVal)`, and — when `newVal` is a container — re-assigns
every own enumerable property of `newVal` through the same trap with
prefix `parentName + name + "."` (the `for (i in newVal)` loop; each
re-assignment reads and writes the freshly stored object, whose backing
is `newVal` itself).  Returns the updated fields of the target and the
list of `emit` calls made, in order. -/
def setTrap (parentName name : String) (target : Fields) (newVal : JSVal) :
    Fields × List ChangeEvent :=
  let oldVal := getField target name
  let evts := handleChange (parentName ++ name) newVal oldVal
  match newVal with
  | .vobj nf =>
      let (nf2, evts2) := assignOwn (parentName ++ name ++ ".") nf nf
      (setField target name (.vobj nf2), evts ++ evts2)
  | v => (setField target name v, evts)

/-- The `for (i in newVal) if (newVal.hasOwnProperty(i)) finalVal[i] =
newVal[i]` loop: iterates over the own enumerable entries of the
assigned object in property order (`entries`; JavaScript objects hold
each key once) and pushes each through the `set` trap on the freshly
stored object, whose live fields are threaded through `cur` (initially
`newVal`'s own fields, since the stored proxy's backing *is*
`newVal`). -/
def assignOwn (prefixPath : String) (entries : Fields) (cur : Fields) :
    Fields × List ChangeEvent :=
  match entries with
  | [] => (cur, [])
  | (k, v) :: rest =>
      let (cur1, evts1) := setTrap prefixPath k cur v
      let (cur2, evts2) := assignOwn prefixPath rest cur1
      (cur2, evts1 ++ evts2)

end

/-- The instance state built by the `MutationWatcher` constructor:
`obj` is the backing fields of `this.obj` (the fresh `{}`), `callback`
is the optional global callback `this._callback` (callbacks are
identified by tags), and `reg` is the listener registry `this._watch`
(a path that was never watched holds no list; that is observationally
the empty list everywhere the source reads `this._watch[path]`, so the
registry is modelled as a total function with default `[]`). -/
structure Watcher where
  obj : Fields
  callback : Option Nat
  reg : String → List Nat

/-- `new MutationWatcher(callback)`: sets `this.obj = {}`,
`this._callback = callback`, `this._watch = {}`. -/
def mutationWatcherNew (callback : Option Nat) : Watcher :=
  ⟨[], callback, fun _ => []⟩

/-- A property read on the value the constructor actually returns.  The
constructor ends with `return this._hook(this.obj, '')`, and a
constructor returning an object makes `new` yield that object, so the
caller receives a `Proxy` whose target is the plain backing object
`this.obj = {}`.  The handler installs only a `set` trap, so reads fall
through to that target (whose prototype is `Object.prototype`, which
carries neither `watch` nor `obj`); the `MutationWatcher.prototype`
methods live on the discarded instance and are not in the returned
value's prototype chain. -/
def entryGet (w : Watcher) (name : String) : JSVal :=
  getField w.obj name

/-- `watch(path, callback)`: `this._watch[path] = this._watch[path] || []`
then `push(callback)` — appends at the end of the path's list. -/
def watch (w : Watcher) (path : String) (cb : Nat) : Watcher :=
  { w with reg := fun q => if q = path then w.reg path ++ [cb] else w.reg q }

/-- `Array.prototype.indexOf`: the first index holding a value
identical (`===`) to `cb`, with `none` standing for `-1`. -/
def indexOfCb : List Nat → Nat → Option Nat
  | [], _ => none
  | x :: rest, cb => if x = cb then some 0 else (indexOfCb rest cb).map (· + 1)

/-- `unWatch(path, callback)`: `indexOf(callback)` on the path's list,
and when the index is `> -1`, `splice(index, 1)` (remove that single
position) and return `true`; otherwise return `false`. -/
def unWatch (w : Watcher) (path : String) (cb : Nat) : Watcher × Bool :=
  let arr := w.reg path
  match indexOfCb arr cb with
  | some i => ({ w with reg := fun q => if q = path then arr.eraseIdx i else w.reg q }, true)
  | none => (w, false)

/-- One callback invocation performed by `emit`, in order: a per-path
listener receives `(newVal, oldVal)`; the global callback receives
`(path, newVal, oldVal)`. -/
inductive Invocation where
  | listener : Nat → JSVal → JSVal → Invocation
  | global : Nat → String → JSVal → JSVal → Invocation

/-- `emit(path, newVal, oldVal)`: reads `this._watch[path]`, and when
the guard `listenerArr && listenerArr.length` holds, calls each
listener in array (= insertion) order with `(newVal, oldVal)`; then, if
the overall callback is set, calls it with `(path, newVal, oldVal)`.
Returns the invocations performed, in order. -/
def emit (w : Watcher) (path : String) (newVal oldVal : JSVal) : List Invocation :=
  let listenerArr := w.reg path
  (if listenerArr.length ≠ 0 then
    listenerArr.map (fun cb => Invocation.listener cb newVal oldVal)
  else [])
  ++ (match w.callback with
      | some g => [Invocation.global g path newVal oldVal]
      | none => [])

/-- Writing through the live graph at a dotted path: `path` names the
chain of containers navigated from the root before the final property
write, so the write `root.a.b = v` is `writeAtAux "" fields ["a"] "b"
v` on the root's fields.  Navigation reads fall through the proxies to
backing storage; the proxy wrapped around the container stored at a
segment carries exactly the prefix `pfx ++ seg ++ "."` it was created
with in the `set` trap (`self._hook(newVal, parentName + name + '.')`),
so the trap fired by the final write uses the accumulated prefix.
`none` models the `TypeError` of writing a property on a non-object. -/
def writeAtAux (pfx : String) (fields : Fields) :
    List String → String → JSVal → Option (Fields × List ChangeEvent)
  | [], name, v => some (setTrap pfx name fields v)
  | seg :: rest, name, v =>
      match getField fields seg with
      | .vobj sub =>
          match writeAtAux (pfx ++ seg ++ ".") sub rest name v with
          | some (sub2, evts) => some (setField fields seg (.vobj sub2), evts)
          | none => none
      | _ => none

/-- The dotted full path of a write: the navigation segments and the
written property name, dot-joined; the root contributes nothing, so the
first segment has no leading dot. -/
def dottedPath : List String → String → String
  | [], name => name
  | s :: rest, name => s ++ "." ++ dottedPath rest name

mutual

/-- Modelled from the spec's words (§3, §4.2 step 5): “deep structural
equality (value semantics for nested containers, not identity)” with
“a referential/primitive equality shortcut”.  Containers are compared
as finite maps — equal key sets and deep-equal values at every key,
key order irrelevant; every other value falls back to the referential /
primitive shortcut.  This definition exists only to compare the spec's
comparison with the one the source actually performs. -/
def deepEq : JSVal → JSVal → Bool
  | .vobj fs, .vobj gs =>
      (gs.all fun p => fs.any fun q => q.1 == p.1) && deepEqFields fs gs
  | a, b => jsBeq a b

/-- Every key of the left object is present in the right one with a
deep-equal value. -/
def deepEqFields : Fields → Fields → Bool
  | [], _ => true
  | (k, v) :: rest, gs => deepEq v (getField gs k) && deepEqFields rest gs

end

example : deepEq (.vobj [("a", .vnum 1), ("b", .vnum 2)])
    (.vobj [("b", .vnum 2), ("a", .vnum 1)]) = true := rfl

/-- A container as it sits in the live graph: its backing fields plus
the stack of interception layers wrapped around it, outermost first,
each layer recorded by the path prefix its handler closes over.
`_hook` is `new Proxy(obj, this._generateHandler(path))` — it always
builds a fresh proxy, even when `obj` is already one, so layers
stack. -/
structure Hooked where
  layers : List String
  fields : Fields

/-- `_hook(obj, path)` applied to a possibly already-wrapped container:
pushes one more interception layer. -/
def hookObj (path : String) (h : Hooked) : Hooked :=
  ⟨path :: h.layers, h.fields⟩

/-- A non-container write through a stack of interception layers.  The
outermost trap reads `oldVal` (the read falls through every layer to
backing storage), commits with `target[name] = finalVal` — which, when
the target is itself a proxy, fires the next trap in the stack before
any storage changes — and only then runs its own `handleChange`; so the
emitted events accumulate innermost layer first.  With zero layers the
write is a plain store with no interception.  (Restricted to
non-container values, for which the trap takes the `finalVal = newVal`
branch and skips the re-assignment loop; the single-layer container
case is `setTrap`.) -/
def setLayers : List String → Fields → String → JSVal → Fields × List ChangeEvent
  | [], fields, name, v => (setField fields name v, [])
  | p :: rest, fields, name, v =>
      let oldVal := getField fields name
      let (fields2, innerEvts) := setLayers rest fields name v
      (fields2, innerEvts ++ handleChange (p ++ name) v oldVal)

/-- Is `k` among the keys of `fs` (`Object.prototype.hasOwnProperty`). -/
def keyMem (fs : Fields) (k : String) : Bool :=
  fs.any fun p => p.1 == k

mutual

/-- Representability as a JavaScript value: every container in the tree
lists each own key at most once (a JavaScript object cannot hold
duplicate keys, so every value that can flow through the source
satisfies this). -/
def wfVal : JSVal → Bool
  | .vobj fs => wfFields fs
  | _ => true

/-- Well-formed property lists: pairwise distinct keys, well-formed
values. -/
def wfFields : Fields → Bool
  | [] => true
  | (k, v) :: rest => !keyMem rest k && wfVal v && wfFields rest

end

/-- A concrete registry state for exercising `unWatch`: the callback
tagged `1` is registered twice on path `"a"` (duplicate registration is
permitted), with callback `2` in between. -/
def c6Watcher : Watcher :=
  ⟨[], none, fun q => if q = "a" then [1, 2, 1] else []⟩

/-- A concrete watcher with a global callback (tag `7`) and no per-path
listeners at all. -/
def c9Watcher : Watcher :=
  ⟨[], some 7, fun _ => []⟩

/- ### Sanity computations on the embedding -/

example : getField [("a", .vnum 1), ("b", .vnum 2)] "b" = .vnum 2 := rfl
example : jsonStr (.vobj [("a", .vnum 1), ("b", .vnum 2)])
    = some "\x7b\"a\":1,\"b\":2\x7d" := rfl
example : jsonStr (.vobj [("a", .undef)]) = some "\x7b\x7d" := rfl
example : handleChange "x" (.vfun 0) (.vfun 1) = [] := rfl
example : (setTrap "" "count" [] (.vnum 1)).2 = [⟨"count", .vnum 1, .undef⟩] := rfl
example : (setTrap "" "user" [] (.vobj [("name", .vstr "Ann"), ("age", .vnum 3)])).2
    = [⟨"user", .vobj [("name", .vstr "Ann"), ("age", .vnum 3)], .undef⟩] := rfl
example : deepEq (.vobj [("a", .vnum 1), ("b", .vnum 2)])
    (.vobj [("b", .vnum 2), ("a", .vnum 1)]) = true := rfl

/- ### Helper lemmas -/

theorem string_empty_append (s : String) : "" ++ s = s := by
  cases s; rfl

mutual

theorem jsBeq_refl : ∀ v : JSVal, jsBeq v v = true
  | .undef => rfl
  | .null => rfl
  | .vbool b => by simp [jsBeq]
  | .vnum n => by simp [jsBeq]
  | .vstr s => by simp [jsBeq]
  | .vfun n => by simp [jsBeq]
  | .vobj fs => by simpa [jsBeq] using jsBeqFields_refl fs

theorem jsBeqFields_refl : ∀ fs : Fields, jsBeqFields fs fs = true
  | [] => rfl
  | (k, v) :: rest => by simp [jsBeqFields, jsBeq_refl v, jsBeqFields_refl rest]

end

theorem handleChange_self (path : String) (v : JSVal) : handleChange path v v = [] := by
  simp [handleChange, jsBeq_refl]

theorem keyMem_of_mem {fs : Fields} {k : String} {v : JSVal} (h : (k, v) ∈ fs) :
    keyMem fs k = true := by
  simp only [keyMem, List.any_eq_true]
  exact ⟨(k, v), h, by simp⟩

theorem setField_keyMem_self (fs : Fields) (k : String) (h : keyMem fs k = true) :
    setField fs k (getField fs k) = fs := by
  induction fs with
  | nil => simp [keyMem] at h
  | cons p rest ih =>
      obtain ⟨k2, v2⟩ := p
      by_cases hk : k2 = k
      · subst hk
        simp [setField, getField]
      · have h2 : keyMem rest k = true := by
          simpa [keyMem, hk] using h
        simp [setField, getField, hk, ih h2]

theorem getField_of_mem {fs : Fields} (hwf : wfFields fs = true) {k : String} {v : JSVal}
    (h : (k, v) ∈ fs) : getField fs k = v := by
  induction fs with
  | nil => simp at h
  | cons p rest ih =>
      obtain ⟨k2, v2⟩ := p
      rw [wfFields] at hwf
      simp only [Bool.and_eq_true, Bool.not_eq_true'] at hwf
      obtain ⟨⟨hnomem, _⟩, hrest⟩ := hwf
      rcases List.mem_cons.mp h with heq | hmem
      · injection heq with hk hv
        simp [getField, hk, hv]
      · have hne : k2 ≠ k := by
          intro hcontra
          subst hcontra
          rw [keyMem_of_mem hmem] at hnomem
          exact Bool.noConfusion hnomem
        simp [getField, hne, ih hrest hmem]

theorem wfVal_of_mem {fs : Fields} (hwf : wfFields fs = true) {k : String} {v : JSVal}
    (h : (k, v) ∈ fs) : wfVal v = true := by
  induction fs with
  | nil => simp at h
  | cons p rest ih =>
      obtain ⟨k2, v2⟩ := p
      rw [wfFields] at hwf
      simp only [Bool.and_eq_true] at hwf
      obtain ⟨⟨_, hw⟩, hrest⟩ := hwf
      rcases List.mem_cons.mp h with heq | hmem
      · injection heq with hk hv
        exact hv ▸ hw
      · exact ih hrest hmem

mutual

theorem setTrap_noop (pfx name : String) (cur : Fields) (v : JSVal)
    (hmem : keyMem cur name = true) (hget : getField cur name = v) (hwf : wfVal v = true) :
    setTrap pfx name cur v = (cur, []) := by
  have hset : setField cur name v = cur := hget ▸ setField_keyMem_self cur name hmem
  have hhc : handleChange (pfx ++ name) v (getField cur name) = [] := by
    rw [hget]; exact handleChange_self _ v
  cases v with
  | vobj nf =>
      have hwff : wfFields nf = true := hwf
      have hrec : assignOwn (pfx ++ name ++ ".") nf nf = (nf, []) :=
        assignOwn_noop (pfx ++ name ++ ".") nf nf
          (fun k u hm => ⟨keyMem_of_mem hm, getField_of_mem hwff hm, wfVal_of_mem hwff hm⟩)
      simp [setTrap, hhc, hrec, hset]
  | undef => simp [setTrap, hhc, hset]
  | null => simp [setTrap, hhc, hset]
  | vbool b => simp [setTrap, hhc, hset]
  | vnum n => simp [setTrap, hhc, hset]
  | vstr s => simp [setTrap, hhc, hset]
  | vfun f => simp [setTrap, hhc, hset]

theorem assignOwn_noop (pfx : String) (entries cur : Fields)
    (h : ∀ k u, (k, u) ∈ entries →
      keyMem cur k = true ∧ getField cur k = u ∧ wfVal u = true) :
    assignOwn pfx entries cur = (cur, []) := by
  match entries with
  | [] => simp [assignOwn]
  | (k, u) :: rest =>
      obtain ⟨h1, h2, h3⟩ := h k u (List.mem_cons_self _ _)
      have hst : setTrap pfx k cur u = (cur, []) := setTrap_noop pfx k cur u h1 h2 h3
      have hrest : assignOwn pfx rest cur = (cur, []) :=
        assignOwn_noop pfx rest cur (fun k2 u2 hm => h k2 u2 (List.mem_cons_of_mem _ hm))
      simp [assignOwn, hst, hrest]

end

theorem setTrap_eq (pfx name : String) (target : Fields) (newVal : JSVal)
    (hwf : wfVal newVal = true) :
    setTrap pfx name target newVal
      = (setField target name newVal,
         handleChange (pfx ++ name) newVal (getField target name)) := by
  cases newVal with
  | vobj nf =>
      have hwff : wfFields nf = true := hwf
      have hrec : assignOwn (pfx ++ name ++ ".") nf nf = (nf, []) :=
        assignOwn_noop (pfx ++ name ++ ".") nf nf
          (fun k u hm => ⟨keyMem_of_mem hm, getField_of_mem hwff hm, wfVal_of_mem hwff hm⟩)
      simp [setTrap, hrec]
  | undef => simp [setTrap]
  | null => simp [setTrap]
  | vbool b => simp [setTrap]
  | vnum n => simp [setTrap]
  | vstr s => simp [setTrap]
  | vfun f => simp [setTrap]

theorem handleChange_path (p : String) (nv ov : JSVal) :
    ∀ e ∈ handleChange p nv ov, e.path = p := by
  intro e he
  unfold handleChange at he
  split at he
  · simp at he
  · rw [List.mem_singleton] at he
    rw [he]

theorem writeAtAux_path (segs : List String) :
    ∀ (pfx : String) (fields : Fields) (name : String) (v : JSVal)
      (res : Fields × List ChangeEvent), wfVal v = true →
    writeAtAux pfx fields segs name v = some res →
    ∀ e ∈ res.2, e.path = pfx ++ dottedPath segs name := by
  induction segs with
  | nil =>
      intro pfx fields name v res hwf heq e he
      simp only [writeAtAux, Option.some.injEq] at heq
      rw [← heq, setTrap_eq pfx name fields v hwf] at he
      exact handleChange_path _ _ _ e he
  | cons s rest ih =>
      intro pfx fields name v res hwf heq e he
      simp only [writeAtAux] at heq
      cases hg : getField fields s with
      | vobj sub =>
          simp only [hg] at heq
          cases hr : writeAtAux (pfx ++ s ++ ".") sub rest name v with
          | none =>
              simp only [hr] at heq
              exact Option.noConfusion heq
          | some r2 =>
              simp only [hr, Option.some.injEq] at heq
              have he2 : e ∈ r2.2 := by rw [← heq] at he; exact he
              have := ih (pfx ++ s ++ ".") sub name v r2 hwf hr e he2
              rw [this, dottedPath]
              simp [String.append_assoc]
      | undef => simp only [hg] at heq; exact Option.noConfusion heq
      | null => simp only [hg] at heq; exact Option.noConfusion heq
      | vbool b => simp only [hg] at heq; exact Option.noConfusion heq
      | vnum n => simp only [hg] at heq; exact Option.noConfusion heq
      | vstr s2 => simp only [hg] at heq; exact Option.noConfusion heq
      | vfun f => simp only [hg] at heq; exact Option.noConfusion heq

theorem indexOfCb_eq_none {arr : List Nat} {cb : Nat} :
    indexOfCb arr cb = none ↔ cb ∉ arr := by
  induction arr with
  | nil => simp [indexOfCb]
  | cons x rest ih =>
      by_cases hx : x = cb
      · subst hx
        simp [indexOfCb]
      · rw [indexOfCb, if_neg hx]
        simp only [Option.map_eq_none', ih, List.mem_cons]
        constructor
        · intro hn hor
          rcases hor with hcb | hmem
          · exact hx hcb.symm
          · exact hn hmem
        · intro hn hmem
          exact hn (Or.inr hmem)

theorem indexOfCb_some {arr : List Nat} {cb i : Nat} (h : indexOfCb arr cb = some i) :
    cb ∈ arr ∧ arr.eraseIdx i = arr.erase cb := by
  induction arr generalizing i with
  | nil => simp [indexOfCb] at h
  | cons x rest ih =>
      by_cases hx : x = cb
      · subst hx
        rw [indexOfCb, if_pos rfl] at h
        have hi : i = 0 := by
          injection h with h2
          exact h2.symm
        subst hi
        exact ⟨List.mem_cons_self _ _, by simp [List.eraseIdx]⟩
      · rw [indexOfCb, if_neg hx] at h
        cases ho : indexOfCb rest cb with
        | none => rw [ho] at h; simp at h
        | some j =>
            rw [ho] at h
            simp only [Option.map_some', Option.some.injEq] at h
            obtain ⟨hmem, herase⟩ := ih ho
            rw [← h]
            refine ⟨List.mem_cons_of_mem _ hmem, ?_⟩
            rw [List.eraseIdx, herase]
            rw [List.erase_cons_tail (by simp [hx])]

theorem unWatch_char (w : Watcher) (p : String) (cb : Nat) :
    ((unWatch w p cb).2 = true ↔ cb ∈ w.reg p)
    ∧ (unWatch w p cb).1.reg p = (w.reg p).erase cb
    ∧ ∀ q, q ≠ p → (unWatch w p cb).1.reg q = w.reg q := by
  unfold unWatch
  cases ho : indexOfCb (w.reg p) cb with
  | none =>
      have hnm : cb ∉ w.reg p := indexOfCb_eq_none.mp ho
      simp only [ho]
      refine ⟨?_, ?_, ?_⟩
      · simp [hnm]
      · exact (List.erase_of_not_mem hnm).symm
      · intro q hq; trivial
  | some i =>
      obtain ⟨hmem, herase⟩ := indexOfCb_some ho
      simp only [ho]
      refine ⟨?_, ?_, ?_⟩
      · simp [hmem]
      · simp [herase]
      · intro q hq
        simp [hq]

/- ### Claims -/

/-- C1 (amended): for every property write through the interceptor, a
dispatch for that path occurs iff the new value differs from the
existing backing value under the source's comparison — the `===`
shortcut followed by equality of `JSON.stringify` serializations (which
is key-insertion-order-sensitive and treats all non-serializable values
as equal, and so is not deep structural equality); when they are equal
no ChangeEvent is produced, and when they differ exactly one dispatch
occurs for that path, carrying the correct `(newVal, oldVal)` pair (the
recursive re-assignment of container properties contributes no
events). -/
theorem c1_dispatch_decision (pfx name : String) (target : Fields) (newVal : JSVal)
    (hwf : wfVal newVal = true) :
    (setTrap pfx name target newVal).2
      = if jsBeq newVal (getField target name)
           || jsonStr newVal == jsonStr (getField target name)
        then []
        else [⟨pfx ++ name, newVal, getField target name⟩] := by
  rw [setTrap_eq pfx name target newVal hwf]
  rfl

/-- C1 witness: overwriting `count = 1` with `2` dispatches exactly
once with the pair `(2, 1)`. -/
theorem c1_dispatch_decision_witness :
    (setTrap "" "count" [("count", JSVal.vnum 1)] (JSVal.vnum 2)).2
      = [⟨"count", JSVal.vnum 2, JSVal.vnum 1⟩] :=
  (c1_dispatch_decision "" "count" [("count", JSVal.vnum 1)] (JSVal.vnum 2) rfl).trans rfl

/-- C1 counterexample: writing `{b:2, a:1}` over a backing value
`{a:1, b:2}` that is deep-structurally equal to it (the spec's §4.2
step 5 comparison) still dispatches a ChangeEvent, because the source
compares `JSON.stringify` texts, which differ when key insertion order
differs. -/
theorem c1_deep_equal_still_dispatches :
    deepEq (JSVal.vobj [("b", JSVal.vnum 2), ("a", JSVal.vnum 1)])
        (JSVal.vobj [("a", JSVal.vnum 1), ("b", JSVal.vnum 2)]) = true
    ∧ (setTrap "" "x" [("x", JSVal.vobj [("a", JSVal.vnum 1), ("b", JSVal.vnum 2)])]
        (JSVal.vobj [("b", JSVal.vnum 2), ("a", JSVal.vnum 1)])).2
      = [⟨"x", JSVal.vobj [("b", JSVal.vnum 2), ("a", JSVal.vnum 1)],
          JSVal.vobj [("a", JSVal.vnum 1), ("b", JSVal.vnum 2)]⟩] :=
  ⟨rfl, rfl⟩

/-- C2 counterexample: assigning `{name: "Ann", age: 3}` to `user` on
an empty root produces exactly one ChangeEvent — for path `"user"` —
and none for `"user.name"` or `"user.age"`: by the time the coordinator
re-assigns each own property through the write path, the freshly stored
object's backing is `newVal` itself, so every re-assignment finds
`newVal === oldVal` and is suppressed. -/
theorem c2_bulk_attach_leaf_events_absent :
    (setTrap "" "user" [] (JSVal.vobj [("name", JSVal.vstr "Ann"), ("age", JSVal.vnum 3)])).2
      = [⟨"user", JSVal.vobj [("name", JSVal.vstr "Ann"), ("age", JSVal.vnum 3)], JSVal.undef⟩]
    ∧ ((setTrap "" "user" []
          (JSVal.vobj [("name", JSVal.vstr "Ann"), ("age", JSVal.vnum 3)])).2.filter
        fun e => e.path == "user.name") = []
    ∧ ((setTrap "" "user" []
          (JSVal.vobj [("name", JSVal.vstr "Ann"), ("age", JSVal.vnum 3)])).2.filter
        fun e => e.path == "user.age") = [] :=
  ⟨rfl, rfl, rfl⟩

/-- C2 (amended): assigning a pre-built container to a property of an
empty root dispatches exactly one change event, for the container path
only; the coordinator does re-assign every own property of the attached
sub-graph back through the intercepted write path, but each such
re-assignment sees the value already committed to backing storage and
is suppressed by the equality check, so no per-property events are
produced. -/
theorem c2_bulk_attach_single_event (name : String) (nf : Fields)
    (hwf : wfVal (JSVal.vobj nf) = true) :
    (setTrap "" name [] (JSVal.vobj nf)).2 = [⟨name, JSVal.vobj nf, JSVal.undef⟩] := by
  rw [setTrap_eq "" name [] (JSVal.vobj nf) hwf]
  show handleChange ("" ++ name) (JSVal.vobj nf) (getField [] name) = _
  rw [string_empty_append name]
  rfl

/-- C2 witness: attaching `{on: true}` at `cfg` dispatches the single
container event. -/
theorem c2_bulk_attach_single_event_witness :
    (setTrap "" "cfg" [] (JSVal.vobj [("on", JSVal.vbool true)])).2
      = [⟨"cfg", JSVal.vobj [("on", JSVal.vbool true)], JSVal.undef⟩] :=
  c2_bulk_attach_single_event "cfg" [("on", JSVal.vbool true)] rfl

/-- C3: `emit` invokes exactly the listeners registered for exactly the
dispatched path, in insertion (array) order, and then the single global
callback — when one is set — last, with `(path, newVal, oldVal)`;
listeners registered on any other path (including prefixes such as
`"user"` for a `"user.name"` change) do not appear in the invocation
list, which depends only on the registry entry for `path`. -/
theorem c3_emit_exact_listeners_then_global (w : Watcher) (path : String)
    (newVal oldVal : JSVal) :
    emit w path newVal oldVal
      = ((w.reg path).map fun cb => Invocation.listener cb newVal oldVal)
        ++ (match w.callback with
            | some g => [Invocation.global g path newVal oldVal]
            | none => []) := by
  simp only [emit]
  cases h : w.reg path with
  | nil => simp [h]
  | cons a l => simp [h]

/-- C4 (code bug): the value returned by `new MutationWatcher(callback)`
is the proxy over the fresh plain backing object `this.obj = {}`, so
reading `watch` or `obj` on the constructed entry point yields
`undefined` — `watch` is not callable on it and the watched root is not
reachable through `.obj`, contradicting the constructor's and `watch`'s
own documentation and making the claimed scenario (`w.watch(...)`;
`w.obj.count = 1`) throw a `TypeError` at its first step. -/
theorem c4_constructed_entry_point_lacks_watch_and_obj (cb : Option Nat) :
    entryGet (mutationWatcherNew cb) "watch" = JSVal.undef
    ∧ entryGet (mutationWatcherNew cb) "obj" = JSVal.undef :=
  ⟨rfl, rfl⟩

/-- C5: for every write through the live graph, every dispatched
event's path is the navigation segments dot-joined with the written
property name; the root contributes an empty prefix, so the first
segment has no leading dot, and array indices arrive as
decimal-string property keys and become ordinary path segments. -/
theorem c5_dispatched_path_is_dotted_join (segs : List String) (fields : Fields)
    (name : String) (v : JSVal) (res : Fields × List ChangeEvent)
    (hwf : wfVal v = true) (hrun : writeAtAux "" fields segs name v = some res) :
    ∀ e ∈ res.2, e.path = dottedPath segs name := by
  intro e he
  have h := writeAtAux_path segs "" fields name v res hwf hrun e he
  rw [string_empty_append] at h
  exact h

/-- C5 witness: after `root.a = {}`, the write `root.a.b = 5`
dispatches path `"a.b"`. -/
theorem c5_dispatched_path_is_dotted_join_witness :
    (⟨"a.b", JSVal.vnum 5, JSVal.undef⟩ : ChangeEvent).path = dottedPath ["a"] "b" :=
  c5_dispatched_path_is_dotted_join ["a"] ((setTrap "" "a" [] (JSVal.vobj [])).1) "b"
    (JSVal.vnum 5)
    ([("a", JSVal.vobj [("b", JSVal.vnum 5)])], [⟨"a.b", JSVal.vnum 5, JSVal.undef⟩])
    rfl rfl ⟨"a.b", JSVal.vnum 5, JSVal.undef⟩ (List.mem_singleton.mpr rfl)

/-- C6: `unWatch` removes exactly the first identical callback from the
path's listener list (never more than one occurrence), returns `true`
exactly when the callback was registered on that path — so a
non-registered callback or a never-watched path yields `false`, with no
exception possible — and leaves every other path's listener list
untouched. -/
theorem c6_unwatch_removes_first_and_reports (w : Watcher) (p : String) (cb : Nat) :
    ((unWatch w p cb).2 = true ↔ cb ∈ w.reg p)
    ∧ (unWatch w p cb).1.reg p = (w.reg p).erase cb
    ∧ ∀ q, q ≠ p → (unWatch w p cb).1.reg q = w.reg q :=
  unWatch_char w p cb

/-- C6 witness: removing callback `1` from path `"a"` of the concrete
registry leaves path `"b"` untouched. -/
theorem c6_unwatch_removes_first_and_reports_witness :
    (unWatch c6Watcher "a" 1).1.reg "b" = c6Watcher.reg "b" :=
  (c6_unwatch_removes_first_and_reports c6Watcher "a" 1).2.2 "b" (by decide)

/-- C7 counterexample: `_hook` always builds a fresh `Proxy`, so
wrapping the already-wrapped container stacks a second interception
layer (layers `["a.", "a."]` instead of the single `["a."]`), and a
single scalar write through the doubly-wrapped container dispatches the
same change event twice, whereas the singly-wrapped container
dispatches it once — wrapping is not idempotent and behavior is not
identical to wrapping once. -/
theorem c7_double_wrap_stacks_and_double_dispatches :
    (hookObj "a." (hookObj "a." ⟨[], []⟩)).layers = ["a.", "a."]
    ∧ (hookObj "a." ⟨[], []⟩).layers = ["a."]
    ∧ (setLayers (hookObj "a." (hookObj "a." ⟨[], []⟩)).layers [] "x" (JSVal.vnum 5)).2
        = [⟨"a.x", JSVal.vnum 5, JSVal.undef⟩, ⟨"a.x", JSVal.vnum 5, JSVal.undef⟩]
    ∧ (setLayers (hookObj "a." ⟨[], []⟩).layers [] "x" (JSVal.vnum 5)).2
        = [⟨"a.x", JSVal.vnum 5, JSVal.undef⟩] :=
  ⟨rfl, rfl, rfl, rfl⟩

/-- C7 (amended): wrapping is not idempotent — each `_hook` call stacks
a fresh interception layer — and a single non-container write through a
stack of layers runs one `handleChange` per layer (innermost first),
each seeing the same pre-write backing value; with one layer this is
the single dispatch of a normal write, with a duplicated layer the same
event is dispatched twice. -/
theorem c7_layered_wrapping_dispatches_per_layer (layers : List String) (fields : Fields)
    (name : String) (v : JSVal) (hv : isObj v = false) :
    setLayers layers fields name v
      = (setField fields name v,
         (layers.reverse.map fun p =>
           handleChange (p ++ name) v (getField fields name)).flatten) := by
  induction layers with
  | nil => simp [setLayers]
  | cons p rest ih => simp [setLayers, ih, List.flatten_append]

/-- C7 witness: through the duplicated layer stack, writing `5` to
`"x"` dispatches the event for `"a.x"` twice. -/
theorem c7_layered_wrapping_dispatches_per_layer_witness :
    setLayers ["a.", "a."] [] "x" (JSVal.vnum 5)
      = ([("x", JSVal.vnum 5)],
         [⟨"a.x", JSVal.vnum 5, JSVal.undef⟩, ⟨"a.x", JSVal.vnum 5, JSVal.undef⟩]) :=
  (c7_layered_wrapping_dispatches_per_layer ["a.", "a."] [] "x" (JSVal.vnum 5) rfl).trans rfl

/-- C8 counterexample: assigning a different function (tag `1`) over an
existing function (tag `0`) — values that are not `===`-equal — is NOT
detected as a change: `JSON.stringify` maps both functions to
`undefined`, `undefined === undefined` holds, and no dispatch
occurs. -/
theorem c8_distinct_functions_no_dispatch :
    jsBeq (JSVal.vfun 1) (JSVal.vfun 0) = false
    ∧ (setTrap "" "f" [("f", JSVal.vfun 0)] (JSVal.vfun 1)).2 = [] :=
  ⟨rfl, rfl⟩

/-- C8 (amended): for values lacking a JSON serialization the
comparison falls back not to referential equality but to comparing the
`JSON.stringify` results, and all functions serialize to `undefined`,
so a write replacing any function by any function — identical or not —
is never dispatched; the comparison itself is a total function on the
modelled (acyclic) value domain. -/
theorem c8_function_writes_never_dispatch (path : String) (i j : Nat) :
    handleChange path (JSVal.vfun i) (JSVal.vfun j) = [] := by
  simp [handleChange, jsonStr]

/-- C9: a dispatch on a path with zero registered per-path listeners
performs no listener call at all — the `listenerArr && listenerArr.length`
guard makes the per-path stage a safe no-op — and still invokes the
global callback when one is set. -/
theorem c9_emit_without_listeners_global_only (w : Watcher) (path : String)
    (newVal oldVal : JSVal) (h : w.reg path = []) :
    emit w path newVal oldVal
      = (match w.callback with
         | some g => [Invocation.global g path newVal oldVal]
         | none => []) := by
  simp only [emit, h]
  simp

/-- C9 witness: the listener-free watcher with global callback `7`
dispatches only the global invocation. -/
theorem c9_emit_without_listeners_global_only_witness :
    emit c9Watcher "user.name" JSVal.null JSVal.undef
      = [Invocation.global 7 "user.name" JSVal.null JSVal.undef] :=
  (c9_emit_without_listeners_global_only c9Watcher "user.name" JSVal.null JSVal.undef
    rfl).trans rfl

/-- C10: `watch(p, cb)` immediately followed by `unWatch(p, cb)`
returns `true` from `unWatch`; when `cb` was not already registered for
`p`, the listener list for `p` is restored exactly to its previous
contents, and listener lists of every other path are unchanged both
after the `watch` and after the `unWatch`. -/
theorem c10_watch_unwatch_roundtrip (w : Watcher) (p : String) (cb : Nat) :
    (unWatch (watch w p cb) p cb).2 = true
    ∧ (cb ∉ w.reg p → (unWatch (watch w p cb) p cb).1.reg p = w.reg p)
    ∧ ∀ q, q ≠ p → (watch w p cb).reg q = w.reg q
        ∧ (unWatch (watch w p cb) p cb).1.reg q = w.reg q := by
  have hw : (watch w p cb).reg p = w.reg p ++ [cb] := by simp [watch]
  obtain ⟨h1, h2, h3⟩ := unWatch_char (watch w p cb) p cb
  refine ⟨?_, ?_, ?_⟩
  · exact h1.mpr (by rw [hw]; simp)
  · intro hn
    rw [h2, hw, List.erase_append_right _ hn]
    simp
  · intro q hq
    have hwq : (watch w p cb).reg q = w.reg q := by simp [watch, hq]
    exact ⟨hwq, (h3 q hq).trans hwq⟩

/-- C10 witness: on a fresh watcher, `watch("count", 3)` then
`unWatch("count", 3)` reports `true`, restores `"count"`'s (empty)
listener list, and leaves `"other"` untouched. -/
theorem c10_watch_unwatch_roundtrip_witness :
    (unWatch (watch (mutationWatcherNew none) "count" 3) "count" 3).2 = true
    ∧ (unWatch (watch (mutationWatcherNew none) "count" 3) "count" 3).1.reg "count"
        = (mutationWatcherNew none).reg "count"
    ∧ (unWatch (watch (mutationWatcherNew none) "count" 3) "count" 3).1.reg "other"
        = (mutationWatcherNew none).reg "other" := by
  obtain ⟨h1, h2, h3⟩ := c10_watch_unwatch_roundtrip (mutationWatcherNew none) "count" 3
  exact ⟨h1, h2 (by simp [mutationWatcherNew]), (h3 "other" (by decide)).2⟩
